import Mathlib

set_option maxHeartbeats 1000000

/-!
Verification development for the amethyst-console crate (src/lib.rs).

The embedding models the console command layer of `src/lib.rs` together with
the semantics of the `cvar` crate's `console` module that `lib.rs` calls into
(`cvar::console::get/set/invoke/reset/reset_all/find/walk`): a configuration
tree of properties, actions and lists addressed by dot-joined paths, with
exact-path lookup resolving to the first match in depth-first order.

Machine-level notes:
* Property values are represented by their display strings; a property's
  `parse` field composes "parse from string" with "display the parsed value"
  and returns the conversion error's message on failure, matching
  `cvar::Prop::set` which parses first and assigns only on success.
* Action handlers are represented by the text they write to the plain-text
  output sink passed to `cvar::console::invoke` (the `&mut String` sink used
  by `CvarExt::exec`).
* Colors are `[f32; 4]`; the program only ever uses the constants `0.` and
  `1.`, embedded exactly as the naturals `0` and `1`.
-/

/-- RGBA color; the source stores `[f32; 4]` but only the constants 0. and 1. occur. -/
abbrev Color := Nat × Nat × Nat × Nat

/-- The default white color `[1., 1., 1., 1.]` used by `From<T> for TextSpan`. -/
def white : Color := (1, 1, 1, 1)

/-- The red color `[1., 0., 0., 1.]` used by `From<ConsoleError> for TextSpan`. -/
def red : Color := (1, 0, 0, 1)

/-- Model of `TextSpan { color, text }` from src/lib.rs. -/
structure TextSpan where
  color : Color
  text : String
deriving DecidableEq

/-- Model of `ConsoleError` from src/lib.rs. -/
inductive ConsoleError where
  | unknownProperty
  | unknownCommand
  | invalidValue (detail : String)
  | invalidUsage (detail : String)
  | noResults
  | unimplemented
  | custom (span : TextSpan)
deriving DecidableEq

/-- Model of `ConsoleResult(pub Result<String, ConsoleError>)` from src/lib.rs. -/
inductive ConsoleResult where
  | ok (text : String)
  | error (e : ConsoleError)
deriving DecidableEq

/-- Model of `Display for ConsoleError` from src/lib.rs. -/
def ConsoleError.message : ConsoleError → String
  | .unknownProperty => "Unknown property"
  | .unknownCommand => "Unknown command"
  | .invalidValue e => "Invalid value: " ++ e
  | .invalidUsage e => "Usage: " ++ e
  | .noResults => "No results"
  | .unimplemented => "Unimplemented"
  | .custom sp => sp.text

/-- A node of the cvar configuration tree (`cvar::INode`): a property
(current value, snapshotted default, string conversion), an action
(handler modelled by the text it writes to the sink), or a list of
child nodes forming a namespace. -/
inductive PNode where
  | prop (name desc value dflt : String) (parse : String → Except String String)
  | action (name desc : String) (handler : List String → String)
  | list (name : String) (children : List PNode)

/-- Model of `INode::name`. -/
def PNode.name : PNode → String
  | .prop nm _ _ _ _ => nm
  | .action nm _ _ => nm
  | .list nm _ => nm

/-- Path joining used by cvar traversal: child paths are dot-joined onto the parent. -/
def joinPath (pfx nm : String) : String :=
  if pfx.isEmpty then nm else pfx ++ "." ++ nm

mutual

/-- Model of `cvar::console::walk` restricted to one node: the node with its full path,
followed by its children in order when it is a list. -/
def walkN (pfx : String) : PNode → List (String × PNode)
  | .list nm ch => (joinPath pfx nm, .list nm ch) :: walkL (joinPath pfx nm) ch
  | n => [(joinPath pfx n.name, n)]

/-- Model of `cvar::console::walk`: depth-first enumeration of every node with its path. -/
def walkL (pfx : String) : List PNode → List (String × PNode)
  | [] => []
  | n :: ns => walkN pfx n ++ walkL pfx ns

end

/-- Rust `str::split(sep)` accumulator: `acc` holds the current piece reversed. -/
def splitCharAux (sep : Char) : List Char → List Char → List String
  | acc, [] => [⟨acc.reverse⟩]
  | acc, c :: t =>
    if c = sep then ⟨acc.reverse⟩ :: splitCharAux sep [] t
    else splitCharAux sep (c :: acc) t

/-- Rust `str::split(sep)` with a character separator. -/
def splitChar (sep : Char) (s : String) : List String := splitCharAux sep [] s.data

/-- Splitting a queried path into its dot-separated components. -/
def splitPath (v : String) : List String := splitChar '.' v

/-- Rust `str::starts_with` with a string pattern. -/
def strStartsWith (s pat : String) : Bool := pat.data.isPrefixOf s.data

mutual

/-- Exact-path lookup inside one node (the components are the remaining path):
the node itself when one component remains and names match, descent into list
children otherwise. -/
def findN : PNode → List String → Option PNode
  | n, [c] => if n.name = c then some n else none
  | .list nm ch, c :: c2 :: rest => if nm = c then findL ch (c2 :: rest) else none
  | _, _ => none

/-- Model of `cvar::console::find`: exact-path lookup, first match in depth-first order wins. -/
def findL : List PNode → List String → Option PNode
  | [], _ => none
  | n :: ns, cs =>
    match findN n cs with
    | some m => some m
    | none => findL ns cs

end

/-- Rewrite a property's stored value from its current value and default;
the identity on actions and lists.  `fun _ _ => w` is `Prop::set` after a
successful parse, `fun _ df => df` is `Prop::reset`. -/
def mapProp (f : String → String → String) : PNode → PNode
  | .prop nm d v df pa => .prop nm d (f v df) df pa
  | n => n

mutual

/-- In-place update at an exact path inside one node: `some` exactly when the
path resolves, with `mapProp f` applied to the resolved node. -/
def updN (f : String → String → String) : PNode → List String → Option PNode
  | n, [c] => if n.name = c then some (mapProp f n) else none
  | .list nm ch, c :: c2 :: rest =>
    if nm = c then (updL f ch (c2 :: rest)).map (PNode.list nm) else none
  | _, _ => none

/-- In-place update at an exact path (first match in depth-first order, like `findL`). -/
def updL (f : String → String → String) : List PNode → List String → Option (List PNode)
  | [], _ => none
  | n :: ns, cs =>
    match updN f n cs with
    | some n' => some (n' :: ns)
    | none => (updL f ns cs).map (n :: ·)

end

mutual

/-- Model of `cvar::console::reset_all` on one node: every property's value becomes its default. -/
def resetAllN : PNode → PNode
  | .prop nm d _ df pa => .prop nm d df df pa
  | .action nm d h => .action nm d h
  | .list nm ch => .list nm (resetAllL ch)

/-- Model of `cvar::console::reset_all`: every property in the tree is restored to its default. -/
def resetAllL : List PNode → List PNode
  | [] => []
  | n :: ns => resetAllN n :: resetAllL ns

end

/-- Substring test on character lists (Rust `str::contains` with a string pattern). -/
def hasInfix (p : List Char) : List Char → Bool
  | [] => p.isEmpty
  | c :: t => p.isPrefixOf (c :: t) || hasInfix p t

/-- Rust `path.contains(var)`: `pat` occurs as a contiguous substring of `s`. -/
def strContains (s pat : String) : Bool := hasInfix pat.data s.data

/-- Rust `str::trim_end`: drop trailing whitespace characters. -/
def trimEndStr (s : String) : String :=
  ⟨(s.data.reverse.dropWhile Char.isWhitespace).reverse⟩

/-- Model of `NodeExt::details` from src/lib.rs: the help/find formatting of one node.
Properties render as `path: current (Default: default)` plus a tab-indented
description; actions split their description at the first newline into a
usage-args hint and free text, falling back to an empty args segment when
everything after the first line is empty; lists render nothing. -/
def details : PNode → String → String
  | .prop _ d v df _, path =>
    path ++ ": " ++ v ++ " (Default: " ++ df ++ ")\n\t" ++ d ++ "\n"
  | .action _ d _, path =>
    let parts := splitChar '\n' d
    let part1 := parts.headD ""
    let part2 := String.intercalate "\n" parts.tail
    let ad := if part2 ≠ "" then (part1, part2) else ("", part1)
    path ++ (if ad.1 ≠ "" then " " ++ ad.1 else "") ++ ":\n\t" ++ ad.2 ++ "\n"
  | .list _ _, _ => ""

/-- Model of `CmdType` from src/lib.rs. -/
inductive CmdType where
  | prop
  | list
  | action
  | notFound
deriving DecidableEq

namespace CvarExt

/-- Model of `CvarExt::get`: `cvar::console::get` produces the property's display text,
anything else is `UnknownProperty`. -/
def get (t : List PNode) (var : String) : ConsoleResult :=
  match findL t (splitPath var) with
  | some (.prop _ _ v _ _) => .ok v
  | _ => .error .unknownProperty

/-- Model of `CvarExt::set`: `cvar::console::set` parses the argument into the property;
`Ok(true)` becomes empty success text, `Ok(false)` (no property at the path)
becomes `UnknownProperty`, and a conversion error becomes `InvalidValue`
carrying the error's message.  The tree is returned alongside the result. -/
def set (t : List PNode) (var val : String) : List PNode × ConsoleResult :=
  match findL t (splitPath var) with
  | some (.prop _ _ _ _ pa) =>
    match pa val with
    | .ok w => ((updL (fun _ _ => w) t (splitPath var)).getD t, .ok "")
    | .error e => (t, .error (.invalidValue e))
  | _ => (t, .error .unknownProperty)

/-- Model of `CvarExt::call`: `cvar::console::invoke` runs the action's handler against
the output sink and reports whether the action existed; the sink text is
returned first, the `ConsoleResult` (`Ok("")` or `UnknownCommand`) second. -/
def call (t : List PNode) (cmd : String) (args : List String) : String × ConsoleResult :=
  match findL t (splitPath cmd) with
  | some (.action _ _ h) => (h args, .ok "")
  | _ => ("", .error .unknownCommand)

/-- Model of `CvarExt::reset`: `cvar::console::reset` restores the property at the path
to its default, reporting failure when the path does not resolve to a property. -/
def reset (t : List PNode) (var : String) : List PNode × ConsoleResult :=
  match findL t (splitPath var) with
  | some (.prop _ _ _ _ _) => ((updL (fun _ df => df) t (splitPath var)).getD t, .ok "")
  | _ => (t, .error .unknownProperty)

/-- Model of `CvarExt::reset_all`: every property is restored, result `Ok("OK")`. -/
def reset_all (t : List PNode) : List PNode × ConsoleResult :=
  (resetAllL t, .ok "OK")

/-- Model of `CvarExt::find`: walk the whole tree, appending `details` for every node
whose path passes the filter; an empty report is `NoResults`. -/
def find (t : List PNode) (filter : String → Bool) : ConsoleResult :=
  let out := String.join ((walkL "" t).map fun pn =>
    if filter pn.1 then details pn.2 pn.1 else "")
  if out.isEmpty then .error .noResults else .ok out

/-- Model of `CvarExt::help`: exact-path lookup of `var` (`cvar::console::find`),
formatting the match with `details`; an empty report (no match, or a match
that formats to nothing, i.e. a list) is `UnknownProperty`. -/
def help (t : List PNode) (var : String) : ConsoleResult :=
  let out :=
    match findL t (splitPath var) with
    | some n => details n var
    | none => ""
  if out.isEmpty then .error .unknownProperty else .ok out

/-- Model of `CvarExt::cmdtype`: report the variant of the exact-path match, `NotFound`
when nothing resolves. -/
def cmdtype (t : List PNode) (var : String) : CmdType :=
  match findL t (splitPath var) with
  | some (.prop _ _ _ _ _) => .prop
  | some (.list _ _) => .list
  | some (.action _ _ _) => .action
  | none => .notFound

/-- Model of `CvarExt::exec`: classify the command name and dispatch.  A property with
at least one argument is a set (only the first argument is used), a property
without arguments is a get, an action is invoked against a fresh string sink
whose accumulated text becomes the success result (the result of `call`
itself is dropped), a list produces a starts-with find report, and no match
is `UnknownCommand`. -/
def exec (t : List PNode) (cmd : String) (args : List String) : List PNode × ConsoleResult :=
  match cmdtype t cmd with
  | .prop =>
    match args.head? with
    | some v => set t cmd v
    | none => (t, get t cmd)
  | .action => (t, .ok (call t cmd args).1)
  | .list => (t, find t (fun p => strStartsWith p cmd))
  | .notFound => (t, .error .unknownCommand)

end CvarExt

namespace VisitMutExt

/-- Model of `VisitMutExt::cmd_help`: with an argument, `help` on that name; without,
a full tree report. -/
def cmd_help (t : List PNode) (args : List String) : ConsoleResult :=
  match args.head? with
  | some var => CvarExt.help t var
  | none => CvarExt.find t (fun _ => true)

/-- Model of `VisitMutExt::cmd_find`: with an argument, a substring find excluding the
path `"find"` itself; without, `InvalidUsage`. -/
def cmd_find (t : List PNode) (args : List String) : ConsoleResult :=
  match args.head? with
  | some var => CvarExt.find t (fun p => strContains p var && p != "find")
  | none => .error (.invalidUsage "find <name>")

/-- Model of `VisitMutExt::cmd_reset`: with an argument, reset that property; without,
reset everything. -/
def cmd_reset (t : List PNode) (args : List String) : List PNode × ConsoleResult :=
  match args.head? with
  | some var => CvarExt.reset t var
  | none => CvarExt.reset_all t

end VisitMutExt

namespace ColoredConsole

/-- Model of `ColoredConsole::writeln`: trim the span's trailing whitespace and append it
with a newline, or append nothing when the trimmed text is empty. -/
def writeln (buf : List TextSpan) (sp : TextSpan) : List TextSpan :=
  let t := trimEndStr sp.text
  if t.isEmpty then buf else buf ++ [⟨sp.color, t ++ "\n"⟩]

/-- Model of `ColoredConsole::write_result`: success text becomes a white span via
`writeln`; an error goes through `write_error`, which wraps the error's
message as `Custom` and renders it via `From<ConsoleError> for TextSpan`,
i.e. a red span carrying the message, again through `writeln`. -/
def write_result (buf : List TextSpan) (r : ConsoleResult) : List TextSpan :=
  match r with
  | .ok s => writeln buf ⟨white, s⟩
  | .error e => writeln buf ⟨red, e.message⟩

end ColoredConsole

/-- Observation of a lookup result: whether a node was found, and its stored
value when it is a property.  This is exactly what `CvarExt::get` can see of a
path, so two trees whose lookups agree under `obs` are get-indistinguishable. -/
def obs : Option PNode → Option (Option String)
  | some (.prop _ _ v _ _) => some (some v)
  | some _ => some none
  | none => none

/-- A numeric string conversion used by the sample trees: accepts exactly the
strings that parse as a natural number, like a numeric cvar property. -/
def sampleParse : String → Except String String :=
  fun s =>
    if s.data.all Char.isDigit && !s.data.isEmpty then .ok s
    else .error "invalid digit found in string"

/-- A sample configuration tree: one numeric property and one action. -/
def sampleTree : List PNode :=
  [.prop "width" "Arena width" "100" "100" sampleParse,
   .action "greet" "Say hello" (fun _ => "Hello, World!")]

/-- A sample tree with a single property whose path is "ab". -/
def abTree : List PNode := [.prop "ab" "d" "1" "1" sampleParse]

/-- The five dispatch classifications of `CvarExt::exec`. -/
inductive ExecClass where
  | propGet
  | propSet
  | actionCall
  | subtreeList
  | notFound
deriving DecidableEq

/-- The trigger condition of each classification: a property with no
arguments, a property with at least one argument, an action, a list, or no
resolvable node at all. -/
def classSpec (t : List PNode) (cmd : String) (args : List String) : ExecClass → Prop
  | .propGet => CvarExt.cmdtype t cmd = .prop ∧ args = []
  | .propSet => CvarExt.cmdtype t cmd = .prop ∧ args ≠ []
  | .actionCall => CvarExt.cmdtype t cmd = .action
  | .subtreeList => CvarExt.cmdtype t cmd = .list
  | .notFound => CvarExt.cmdtype t cmd = .notFound

/-- The operation each classification performs: property get, property set of
the first argument, action call returning the sink text, starts-with find
report, or `UnknownCommand`. -/
def classRun (t : List PNode) (cmd : String) (args : List String) :
    ExecClass → List PNode × ConsoleResult
  | .propGet => (t, CvarExt.get t cmd)
  | .propSet => CvarExt.set t cmd (args.headD "")
  | .actionCall => (t, .ok (CvarExt.call t cmd args).1)
  | .subtreeList => (t, CvarExt.find t (fun p => strStartsWith p cmd))
  | .notFound => (t, .error .unknownCommand)

/-- The behavior claim C3 attributes to `help <name>`, stated from the spec's
words for comparison with the code's `help`: a substring search restricted to
that name, each match formatted via the details formatter. -/
def helpSubstringClaim (t : List PNode) (var : String) : ConsoleResult :=
  CvarExt.find t (fun p => strContains p var)

theorem mapProp_name (f : String → String → String) (n : PNode) :
    (mapProp f n).name = n.name := by
  cases n <;> rfl

theorem findN_nil (n : PNode) : findN n [] = none := by
  cases n <;> rfl

theorem updN_nil (f : String → String → String) (n : PNode) : updN f n [] = none := by
  cases n <;> rfl

mutual

theorem updN_none_iff (f : String → String → String) :
    ∀ (n : PNode) (cs : List String), updN f n cs = none ↔ findN n cs = none
  | n, [] => by rw [findN_nil, updN_nil]
  | n, [c] => by
    cases n <;> simp only [updN, findN, PNode.name, mapProp] <;> split <;> simp_all
  | .prop nm d v df pa, c :: c2 :: rest => by simp [updN, findN]
  | .action nm d h, c :: c2 :: rest => by simp [updN, findN]
  | .list nm ch, c :: c2 :: rest => by
    simp only [updN, findN]
    by_cases hc : nm = c
    · subst hc
      rw [if_pos rfl, if_pos rfl, Option.map_eq_none']
      exact updL_none_iff f ch (c2 :: rest)
    · simp [hc]

theorem updL_none_iff (f : String → String → String) :
    ∀ (t : List PNode) (cs : List String), updL f t cs = none ↔ findL t cs = none
  | [], cs => by simp [updL, findL]
  | n :: ns, cs => by
    simp only [updL, findL]
    cases h1 : updN f n cs with
    | some n' =>
      have : findN n cs ≠ none := by
        intro h2
        rw [← updN_none_iff f n cs] at h2
        simp [h1] at h2
      cases h2 : findN n cs with
      | some m => simp
      | none => exact absurd h2 this
    | none =>
      have h2 : findN n cs = none := (updN_none_iff f n cs).mp h1
      rw [h2, Option.map_eq_none']
      exact updL_none_iff f ns cs

end

mutual

theorem findN_updN (f : String → String → String) :
    ∀ (n : PNode) (cs : List String) (n' : PNode), updN f n cs = some n' →
      findN n' cs = (findN n cs).map (mapProp f)
  | n, [c], n' => by
    simp only [updN, findN]
    by_cases h : n.name = c
    · intro hu
      simp only [h, if_pos rfl] at hu ⊢
      cases hu
      rw [if_pos (by rw [mapProp_name, h])]
      rfl
    · intro hu
      simp [h] at hu
  | n, [], n' => by rw [updN_nil]; intro h; cases h
  | .prop nm d v df pa, c :: c2 :: rest, n' => by intro h; simp [updN] at h
  | .action nm d h0, c :: c2 :: rest, n' => by intro h; simp [updN] at h
  | .list nm ch, c :: c2 :: rest, n' => by
    simp only [updN, findN]
    by_cases hc : nm = c
    · subst hc
      rw [if_pos rfl, if_pos rfl]
      intro hu
      cases hch : updL f ch (c2 :: rest) with
      | some ch' =>
        rw [hch] at hu
        simp only [Option.map_some'] at hu
        cases hu
        rw [findN, if_pos rfl]
        exact findL_updL f ch (c2 :: rest) ch' hch
      | none => rw [hch] at hu; cases hu
    · rw [if_neg hc, if_neg hc]
      intro hu
      cases hu

theorem findL_updL (f : String → String → String) :
    ∀ (t : List PNode) (cs : List String) (t' : List PNode), updL f t cs = some t' →
      findL t' cs = (findL t cs).map (mapProp f)
  | [], cs, t' => by intro h; cases h
  | n :: ns, cs, t' => by
    simp only [updL, findL]
    cases h1 : updN f n cs with
    | some n' =>
      intro hu
      cases hu
      have h2 : findN n cs ≠ none := by
        intro h2
        rw [← updN_none_iff f n cs] at h2
        simp [h1] at h2
      cases h3 : findN n cs with
      | some m =>
        have := findN_updN f n cs n' h1
        rw [h3] at this
        simp only [findL, this, Option.map_some']
      | none => exact absurd h3 h2
    | none =>
      have h2 : findN n cs = none := (updN_none_iff f n cs).mp h1
      rw [h2]
      cases h3 : updL f ns cs with
      | some ns' =>
        intro hu
        simp only [Option.map_some'] at hu
        cases hu
        simp only [findL, h2]
        exact findL_updL f ns cs ns' h3
      | none => intro hu; simp at hu

end

theorem obs_some_ne_none (x : PNode) : obs (some x) ≠ none := by
  cases x <;> simp [obs]

mutual

theorem obs_findN_updN (f : String → String → String) :
    ∀ (n : PNode) (cs : List String) (n' : PNode), updN f n cs = some n' →
      ∀ cs', cs' ≠ cs → obs (findN n' cs') = obs (findN n cs')
  | n, [], n' => by rw [updN_nil]; intro h; cases h
  | n, [c], n' => by
    simp only [updN]
    by_cases h : n.name = c
    · rw [if_pos h]
      intro hu
      cases hu
      intro cs' hne
      match cs' with
      | [] => rw [findN_nil, findN_nil]
      | [c'] =>
        have hcc : c' ≠ c := by
          intro he
          exact hne (by rw [he])
        rw [findN, findN, if_neg (by rw [mapProp_name, h]; exact fun he => hcc he.symm),
          if_neg (by rw [h]; exact fun he => hcc he.symm)]
      | c1 :: c2 :: rest => cases n <;> rfl
    · rw [if_neg h]
      intro hu
      cases hu
  | .prop nm d v df pa, c :: c2 :: rest, n' => by intro h; simp [updN] at h
  | .action nm d h0, c :: c2 :: rest, n' => by intro h; simp [updN] at h
  | .list nm ch, c :: c2 :: rest, n' => by
    simp only [updN]
    by_cases hc : nm = c
    · subst hc
      rw [if_pos rfl]
      intro hu
      cases hch : updL f ch (c2 :: rest) with
      | some ch' =>
        rw [hch] at hu
        simp only [Option.map_some'] at hu
        cases hu
        intro cs' hne
        match cs' with
        | [] => rw [findN_nil, findN_nil]
        | [c'] =>
          by_cases h' : c' = nm
          · subst h'
            rw [findN, findN, PNode.name, PNode.name, if_pos rfl, if_pos rfl]
            rfl
          · rw [findN, findN, PNode.name, PNode.name,
              if_neg (fun he => h' he.symm), if_neg (fun he => h' he.symm)]
        | c1 :: c2' :: rest' =>
          by_cases h' : nm = c1
          · subst h'
            rw [findN, findN, if_pos rfl, if_pos rfl]
            have htl : c2' :: rest' ≠ c2 :: rest := by
              intro he
              exact hne (by rw [he])
            exact obs_findL_updL f ch (c2 :: rest) ch' hch (c2' :: rest') htl
          · rw [findN, findN, if_neg h', if_neg h']
      | none => rw [hch] at hu; cases hu
    · rw [if_neg hc]
      intro hu
      cases hu

theorem obs_findL_updL (f : String → String → String) :
    ∀ (t : List PNode) (cs : List String) (t' : List PNode), updL f t cs = some t' →
      ∀ cs', cs' ≠ cs → obs (findL t' cs') = obs (findL t cs')
  | [], cs, t' => by intro h; cases h
  | n :: ns, cs, t' => by
    simp only [updL]
    cases h1 : updN f n cs with
    | some n' =>
      intro hu
      cases hu
      intro cs' hne
      have hobs := obs_findN_updN f n cs n' h1 cs' hne
      simp only [findL]
      cases h2 : findN n cs' with
      | some m =>
        cases h3 : findN n' cs' with
        | some m' =>
          rw [h2, h3] at hobs
          exact hobs
        | none =>
          rw [h2, h3] at hobs
          exact absurd hobs.symm (obs_some_ne_none m)
      | none =>
        cases h3 : findN n' cs' with
        | some m' =>
          rw [h2, h3] at hobs
          exact absurd hobs (obs_some_ne_none m')
        | none => rfl
    | none =>
      cases h3 : updL f ns cs with
      | some ns' =>
        intro hu
        simp only [Option.map_some'] at hu
        cases hu
        intro cs' hne
        simp only [findL]
        cases h2 : findN n cs' with
        | some m => rfl
        | none => exact obs_findL_updL f ns cs ns' h3 cs' hne
      | none => intro hu; simp at hu

end

theorem get_obs (t : List PNode) (q : String) :
    CvarExt.get t q =
      (match obs (findL t (splitPath q)) with
       | some (some v) => .ok v
       | _ => .error .unknownProperty) := by
  unfold CvarExt.get obs
  cases h : findL t (splitPath q) with
  | some n => cases n <;> rfl
  | none => rfl

theorem get_after_updL (f : String → String → String) (t : List PNode) (cs : List String)
    (t' : List PNode) (hu : updL f t cs = some t') (q : String)
    (hne : splitPath q ≠ cs) : CvarExt.get t' q = CvarExt.get t q := by
  rw [get_obs, get_obs, obs_findL_updL f t cs t' hu (splitPath q) hne]

theorem updL_of_findL (f : String → String → String) (t : List PNode) (cs : List String)
    (m : PNode) (hf : findL t cs = some m) : ∃ t', updL f t cs = some t' := by
  cases h : updL f t cs with
  | some t' => exact ⟨t', rfl⟩
  | none =>
    rw [(updL_none_iff f t cs).mp h] at hf
    cases hf

mutual

theorem resetAllN_props :
    ∀ (pfx : String) (n : PNode) (p nm d v df : String) (pa : String → Except String String),
      (p, PNode.prop nm d v df pa) ∈ walkN pfx (resetAllN n) → v = df
  | pfx, .prop nm' d' v' df' pa', p, nm, d, v, df, pa => by
    simp only [resetAllN, walkN, List.mem_singleton, Prod.mk.injEq, PNode.prop.injEq]
    rintro ⟨-, -, -, hv, hdf, -⟩
    rw [hv, hdf]
  | pfx, .action nm' d' h', p, nm, d, v, df, pa => by
    simp only [resetAllN, walkN, List.mem_singleton, Prod.mk.injEq]
    rintro ⟨-, h⟩
    cases h
  | pfx, .list nm' ch, p, nm, d, v, df, pa => by
    simp only [resetAllN, walkN, List.mem_cons, Prod.mk.injEq]
    rintro (⟨-, h⟩ | h)
    · cases h
    · exact resetAllL_props (joinPath pfx nm') ch p nm d v df pa h

theorem resetAllL_props :
    ∀ (pfx : String) (t : List PNode) (p nm d v df : String) (pa : String → Except String String),
      (p, PNode.prop nm d v df pa) ∈ walkL pfx (resetAllL t) → v = df
  | pfx, [], p, nm, d, v, df, pa => by simp [resetAllL, walkL]
  | pfx, n :: ns, p, nm, d, v, df, pa => by
    simp only [resetAllL, walkL, List.mem_append]
    rintro (h | h)
    · exact resetAllN_props pfx n p nm d v df pa h
    · exact resetAllL_props pfx ns p nm d v df pa h

end

/-- C1: for every command name and argument list, `exec` selects exactly one
of the five classifications (property-get, property-set, action-call,
subtree-list, not-found) — a `Prop` node with no arguments dispatches `get`,
a `Prop` node with arguments dispatches `set`, an `Action` node dispatches
`call`, a `List` node dispatches a starts-with find, and `NotFound` yields
`UnknownCommand` — never zero and never two of these. -/
theorem exec_dispatch_total (t : List PNode) (cmd : String) (args : List String) :
    (∃! c : ExecClass, classSpec t cmd args c) ∧
    (∀ c : ExecClass, classSpec t cmd args c →
      CvarExt.exec t cmd args = classRun t cmd args c) := by
  constructor
  · cases h : CvarExt.cmdtype t cmd with
    | prop =>
      cases args with
      | nil =>
        exact ⟨.propGet, ⟨h, rfl⟩, by rintro (_|_|_|_|_) hc <;> simp_all [classSpec]⟩
      | cons a as =>
        exact ⟨.propSet, ⟨h, by simp⟩, by rintro (_|_|_|_|_) hc <;> simp_all [classSpec]⟩
    | list =>
      exact ⟨.subtreeList, h, by rintro (_|_|_|_|_) hc <;> simp_all [classSpec]⟩
    | action =>
      exact ⟨.actionCall, h, by rintro (_|_|_|_|_) hc <;> simp_all [classSpec]⟩
    | notFound =>
      exact ⟨.notFound, h, by rintro (_|_|_|_|_) hc <;> simp_all [classSpec]⟩
  · intro c hc
    cases c with
    | propGet =>
      obtain ⟨h1, h2⟩ := hc
      subst h2
      unfold CvarExt.exec classRun
      rw [h1]
      rfl
    | propSet =>
      obtain ⟨h1, h2⟩ := hc
      unfold CvarExt.exec classRun
      rw [h1]
      cases args with
      | nil => exact absurd rfl h2
      | cons a as => rfl
    | actionCall =>
      unfold CvarExt.exec classRun
      rw [hc]
    | subtreeList =>
      unfold CvarExt.exec classRun
      rw [hc]
    | notFound =>
      unfold CvarExt.exec classRun
      rw [hc]

/-- Witness for C1: on the sample tree, classifying `greet` as an action call
runs the handler against the sink and returns its text. -/
theorem exec_dispatch_total_witness :
    CvarExt.exec sampleTree "greet" [] = (sampleTree, .ok "Hello, World!") := by
  rw [(exec_dispatch_total sampleTree "greet" []).2 .actionCall
    (show CvarExt.cmdtype sampleTree "greet" = CmdType.action from rfl)]
  rfl

/-- C2: for a property at `var`, a `set` whose argument fails to parse leaves
the whole tree (in particular the property's stored value) unchanged and
returns `InvalidValue` carrying the conversion error's message; a parsing
argument mutates the property in place, returns empty success text, and
leaves every other path's observable value unchanged. -/
theorem set_atomic (t : List PNode) (var val nm d v df : String)
    (pa : String → Except String String)
    (hfind : findL t (splitPath var) = some (.prop nm d v df pa)) :
    (∀ e, pa val = .error e →
      CvarExt.set t var val = (t, .error (.invalidValue e))) ∧
    (∀ w, pa val = .ok w →
      (CvarExt.set t var val).2 = .ok "" ∧
      findL (CvarExt.set t var val).1 (splitPath var) = some (.prop nm d w df pa) ∧
      ∀ q, splitPath q ≠ splitPath var →
        CvarExt.get (CvarExt.set t var val).1 q = CvarExt.get t q) := by
  constructor
  · intro e he
    unfold CvarExt.set
    rw [hfind]
    simp only [he]
  · intro w hw
    obtain ⟨t', ht'⟩ := updL_of_findL (fun _ _ => w) t (splitPath var) _ hfind
    have hset : CvarExt.set t var val = (t', .ok "") := by
      unfold CvarExt.set
      rw [hfind]
      simp only [hw, ht', Option.getD_some]
    refine ⟨by rw [hset], ?_, ?_⟩
    · rw [hset]
      have hf := findL_updL (fun _ _ => w) t (splitPath var) t' ht'
      rw [hfind] at hf
      simpa [mapProp] using hf
    · intro q hq
      rw [hset]
      exact get_after_updL _ t (splitPath var) t' ht' q hq

/-- Witness for C2: on the sample tree, setting `width` to a non-numeric
string is rejected without mutation, and setting it to `150` succeeds with
empty output. -/
theorem set_atomic_witness :
    CvarExt.set sampleTree "width" "abc"
      = (sampleTree, .error (.invalidValue "invalid digit found in string")) ∧
    (CvarExt.set sampleTree "width" "150").2 = .ok "" :=
  ⟨(set_atomic sampleTree "width" "abc" "width" "Arena width" "100" "100" sampleParse
      (show _ = _ from rfl)).1 "invalid digit found in string" (show _ = _ from rfl),
   ((set_atomic sampleTree "width" "150" "width" "Arena width" "100" "100" sampleParse
      (show _ = _ from rfl)).2 "150" (show _ = _ from rfl)).1⟩

/-- C3 (amended): `help` with an argument performs an exact-path lookup of
that name (the same `cvar::console::find` lookup classification uses) and
formats the match via the details formatter; with no argument it produces a
full tree dump; when the name matches nothing (or matches only a list, which
formats to nothing), help returns `UnknownProperty`. -/
theorem help_exact_spec (t : List PNode) (var : String) (rest : List String) :
    VisitMutExt.cmd_help t [] = CvarExt.find t (fun _ => true) ∧
    VisitMutExt.cmd_help t (var :: rest) =
      (match findL t (splitPath var) with
       | some n =>
         if (details n var).isEmpty then .error .unknownProperty
         else .ok (details n var)
       | none => .error .unknownProperty) := by
  refine ⟨rfl, ?_⟩
  show CvarExt.help t var = _
  unfold CvarExt.help
  cases h : findL t (splitPath var) with
  | some n => rfl
  | none => rfl

/-- C3 counterexample: on a tree containing the property `ab`, the claimed
substring search for `a` finds and formats the property, but `help a`
performs an exact lookup and returns `UnknownProperty`. -/
theorem help_substring_cex :
    VisitMutExt.cmd_help abTree ["a"] = .error .unknownProperty ∧
    helpSubstringClaim abTree "a" = .ok "ab: 1 (Default: 1)\n\td\n" ∧
    VisitMutExt.cmd_help abTree ["a"] ≠ helpSubstringClaim abTree "a" := by
  refine ⟨rfl, rfl, ?_⟩
  intro h
  rw [show VisitMutExt.cmd_help abTree ["a"] = .error .unknownProperty from rfl] at h
  rw [show helpSubstringClaim abTree "a" = .ok "ab: 1 (Default: 1)\n\td\n" from rfl] at h
  cases h

/-- C4 (amended): rendering a ConsoleResult appends at most one TextSpan:
`Ok(text)` becomes a white span whose text is trimmed of trailing whitespace
with a trailing newline appended when the trimmed text is non-empty (an empty
success produces no span at all); `Err(kind)` likewise becomes a red span
carrying kind's human-readable message, trimmed, with a newline appended,
except that an error whose message trims to empty (possible only for
`Custom`) also produces no span. -/
theorem write_result_spec (buf : List TextSpan) (r : ConsoleResult) :
    (∀ s, r = .ok s → ColoredConsole.write_result buf r =
      (if (trimEndStr s).isEmpty then buf
       else buf ++ [⟨white, trimEndStr s ++ "\n"⟩])) ∧
    (∀ e, r = .error e → ColoredConsole.write_result buf r =
      (if (trimEndStr e.message).isEmpty then buf
       else buf ++ [⟨red, trimEndStr e.message ++ "\n"⟩])) ∧
    (ColoredConsole.write_result buf r).length ≤ buf.length + 1 := by
  refine ⟨?_, ?_, ?_⟩
  · rintro s rfl
    rfl
  · rintro e rfl
    rfl
  · have hlen : ∀ sp : TextSpan, (ColoredConsole.writeln buf sp).length ≤ buf.length + 1 := by
      intro sp
      show (if (trimEndStr sp.text).isEmpty then buf
        else buf ++ [⟨sp.color, trimEndStr sp.text ++ "\n"⟩]).length ≤ buf.length + 1
      split
      · exact Nat.le_succ buf.length
      · simp
    cases r with
    | ok s => exact hlen ⟨white, s⟩
    | error e => exact hlen ⟨red, e.message⟩

/-- C4 counterexample: a `Custom` error whose span text is empty renders no
span at all, rather than becoming a red span. -/
theorem write_result_empty_custom_cex :
    ColoredConsole.write_result [] (.error (.custom ⟨white, ""⟩)) = [] ∧
    (ConsoleError.custom ⟨white, ""⟩).message = "" := ⟨rfl, rfl⟩

/-- Witness for C4: a success with trailing whitespace renders one trimmed
white span, and an error renders one red span with its message. -/
theorem write_result_spec_witness :
    ColoredConsole.write_result [] (.ok "hi  ") = [⟨white, "hi\n"⟩] ∧
    ColoredConsole.write_result [] (.error .unknownProperty)
      = [⟨red, "Unknown property\n"⟩] := by
  constructor
  · rw [(write_result_spec [] (.ok "hi  ")).1 "hi  " rfl]
    rfl
  · rw [(write_result_spec [] (.error .unknownProperty)).2.1 .unknownProperty rfl]
    rfl

/-- C5: `reset` with no argument restores every property to its snapshotted
default and returns `Ok("OK")`; with an argument naming a property it
restores only that property (every other path's observable value is
unchanged) and returns empty success text; with an argument naming no
property it returns `UnknownProperty` and leaves the tree untouched. -/
theorem reset_cmd_spec (t : List PNode) :
    (VisitMutExt.cmd_reset t [] = (resetAllL t, .ok "OK") ∧
      ∀ p nm d v df pa, (p, PNode.prop nm d v df pa) ∈ walkL "" (resetAllL t) → v = df) ∧
    (∀ var nm d v df pa rest, findL t (splitPath var) = some (.prop nm d v df pa) →
      (VisitMutExt.cmd_reset t (var :: rest)).2 = .ok "" ∧
      findL (VisitMutExt.cmd_reset t (var :: rest)).1 (splitPath var)
        = some (.prop nm d df df pa) ∧
      ∀ q, splitPath q ≠ splitPath var →
        CvarExt.get (VisitMutExt.cmd_reset t (var :: rest)).1 q = CvarExt.get t q) ∧
    (∀ var rest, (∀ nm d v df pa, findL t (splitPath var) ≠ some (.prop nm d v df pa)) →
      VisitMutExt.cmd_reset t (var :: rest) = (t, .error .unknownProperty)) := by
  refine ⟨⟨rfl, ?_⟩, ?_, ?_⟩
  · intro p nm d v df pa h
    exact resetAllL_props "" t p nm d v df pa h
  · intro var nm d v df pa rest hfind
    obtain ⟨t', ht'⟩ := updL_of_findL (fun _ df => df) t (splitPath var) _ hfind
    have hres : VisitMutExt.cmd_reset t (var :: rest) = (t', .ok "") := by
      show CvarExt.reset t var = _
      unfold CvarExt.reset
      rw [hfind]
      simp only [ht', Option.getD_some]
    refine ⟨by rw [hres], ?_, ?_⟩
    · rw [hres]
      have hf := findL_updL (fun _ df => df) t (splitPath var) t' ht'
      rw [hfind] at hf
      simpa [mapProp] using hf
    · intro q hq
      rw [hres]
      exact get_after_updL _ t (splitPath var) t' ht' q hq
  · intro var rest hno
    show CvarExt.reset t var = _
    unfold CvarExt.reset
    cases h : findL t (splitPath var) with
    | some n =>
      cases n with
      | prop nm d v df pa => exact absurd h (hno nm d v df pa)
      | action nm d hd => rfl
      | list nm ch => rfl
    | none => rfl

/-- Witness for C5: on the sample tree, `reset width` succeeds with empty
text, `reset nope` is `UnknownProperty`, and a bare `reset` resets everything
and returns `OK`. -/
theorem reset_cmd_spec_witness :
    (VisitMutExt.cmd_reset sampleTree ["width"]).2 = .ok "" ∧
    VisitMutExt.cmd_reset sampleTree ["nope"] = (sampleTree, .error .unknownProperty) ∧
    VisitMutExt.cmd_reset sampleTree [] = (resetAllL sampleTree, .ok "OK") := by
  refine ⟨?_, ?_, ((reset_cmd_spec sampleTree).1).1⟩
  · exact ((reset_cmd_spec sampleTree).2.1 "width" "width" "Arena width" "100" "100"
      sampleParse [] (show _ = _ from rfl)).1
  · refine (reset_cmd_spec sampleTree).2.2 "nope" [] ?_
    intro nm d v df pa h
    rw [show findL sampleTree (splitPath "nope") = none from rfl] at h
    cases h

/-- C6: the `find` builtin without an argument is `InvalidUsage`; with an
argument it walks every node, collecting details of those whose path contains
the argument as a substring, excluding only the path exactly `"find"`, and an
empty report is `NoResults`. -/
theorem find_cmd_spec (t : List PNode) (v : String) (rest : List String) :
    VisitMutExt.cmd_find t [] = .error (.invalidUsage "find <name>") ∧
    VisitMutExt.cmd_find t (v :: rest) =
      (let out := String.join ((walkL "" t).map fun pn =>
        if strContains pn.1 v && pn.1 != "find" then details pn.2 pn.1 else "")
       if out.isEmpty then .error .noResults else .ok out) := ⟨rfl, rfl⟩

/-- C7: a command name resolving to no node at all yields `UnknownCommand`
from `exec`, and rendering that error appends a single red span reading
`Unknown command`. -/
theorem unknown_command_red (t : List PNode) (cmd : String) (args : List String)
    (buf : List TextSpan) (hfind : findL t (splitPath cmd) = none) :
    CvarExt.exec t cmd args = (t, .error .unknownCommand) ∧
    ColoredConsole.write_result buf (.error .unknownCommand)
      = buf ++ [⟨red, "Unknown command\n"⟩] := by
  constructor
  · have hty : CvarExt.cmdtype t cmd = .notFound := by
      unfold CvarExt.cmdtype
      rw [hfind]
    unfold CvarExt.exec
    rw [hty]
  · rfl

/-- Witness for C7: the scenario `bogus_command` on an empty tree. -/
theorem unknown_command_red_witness :
    CvarExt.exec [] "bogus_command" [] = ([], .error .unknownCommand) ∧
    ColoredConsole.write_result [] (.error .unknownCommand)
      = [⟨red, "Unknown command\n"⟩] :=
  unknown_command_red [] "bogus_command" [] [] rfl

/-- C8 (amended): the details formatter renders a Property match as
`path: current (Default: default)` followed by a tab-indented description
line, and an Action match as `path args:` followed by a tab-indented
description, where the first line of the action's description is the
usage-args hint and the remainder the free text only when that remainder is
non-empty; when everything after the first line is empty (no newline at all,
or nothing after the newline) the args segment is empty and the first line is
the free text; an empty args hint renders with no separating space. -/
theorem details_format (path nm d v df desc : String)
    (pa : String → Except String String) (h : List String → String) :
    details (.prop nm d v df pa) path
      = path ++ ": " ++ v ++ " (Default: " ++ df ++ ")\n\t" ++ d ++ "\n" ∧
    (String.intercalate "\n" (splitChar '\n' desc).tail = "" →
      details (.action nm desc h) path
        = path ++ ":\n\t" ++ (splitChar '\n' desc).headD "" ++ "\n") ∧
    (∀ first rest, (splitChar '\n' desc).headD "" = first →
      String.intercalate "\n" (splitChar '\n' desc).tail = rest →
      rest ≠ "" → first ≠ "" →
      details (.action nm desc h) path
        = path ++ " " ++ first ++ ":\n\t" ++ rest ++ "\n") ∧
    (∀ rest, String.intercalate "\n" (splitChar '\n' desc).tail = rest → rest ≠ "" →
      (splitChar '\n' desc).headD "" = "" →
      details (.action nm desc h) path = path ++ ":\n\t" ++ rest ++ "\n") := by
  refine ⟨rfl, ?_, ?_, ?_⟩
  · intro h2
    simp only [details]
    rw [h2]
    simp [String.append_empty]
  · intro first rest h1 h2 h3 h4
    simp only [details]
    rw [h1, h2]
    simp only [ne_eq, h3, not_false_iff, if_true, h4]
    rw [← String.append_assoc]
  · intro rest h2 h3 h4
    simp only [details]
    rw [h2, h4]
    rw [if_pos h3]
    simp [String.append_empty]

/-- C8 counterexample: an action whose description is exactly one line
followed by a newline renders with an empty args segment and that line as
free text, not with the line as an args hint and empty free text. -/
theorem details_newline_cex :
    details (.action "a" "x\n" (fun _ => "")) "a" = "a:\n\tx\n" ∧
    details (.action "a" "x\n" (fun _ => "")) "a" ≠ "a x:\n\t\n" := by
  refine ⟨rfl, ?_⟩
  decide

/-- Witness for C8: the `greet` action's one-line description renders with no
args segment, and the `find` builtin's two-line description renders its first
line as the args hint. -/
theorem details_format_witness :
    details (.action "greet" "Say hello" (fun _ => "")) "greet"
      = "greet:\n\tSay hello\n" ∧
    details (.action "find" "<text>\nSearch for matching commands" (fun _ => "")) "find"
      = "find <text>:\n\tSearch for matching commands\n" := by
  constructor
  · exact (details_format "greet" "greet" "" "" "" "Say hello" sampleParse
      (fun _ => "")).2.1 (show _ = _ from rfl)
  · exact (details_format "find" "find" "" "" "" "<text>\nSearch for matching commands"
      sampleParse (fun _ => "")).2.2.1 "<text>" "Search for matching commands"
      (show _ = _ from rfl) (show _ = _ from rfl) (by decide) (by decide)

/-- C9: when `exec` classifies a command as an Action it returns `Ok` of the
text the handler wrote to the string sink, discarding the `ConsoleResult`
that `call` produced; the sink text is exactly the handler's output on the
full argument list. -/
theorem exec_action_sink (t : List PNode) (cmd : String) (args : List String)
    (hty : CvarExt.cmdtype t cmd = .action) :
    CvarExt.exec t cmd args = (t, .ok (CvarExt.call t cmd args).1) ∧
    ∀ nm d hd, findL t (splitPath cmd) = some (.action nm d hd) →
      (CvarExt.call t cmd args).1 = hd args := by
  constructor
  · unfold CvarExt.exec
    rw [hty]
  · intro nm d hd hf
    unfold CvarExt.call
    rw [hf]

/-- Witness for C9: the `greet` action returns a success carrying the sink
text even though `call`'s own result is discarded. -/
theorem exec_action_sink_witness :
    CvarExt.exec sampleTree "greet" ["x"] = (sampleTree, .ok "Hello, World!") := by
  rw [(exec_action_sink sampleTree "greet" ["x"]
    (show CvarExt.cmdtype sampleTree "greet" = CmdType.action from rfl)).1]
  rfl

/-- C10: when `exec` classifies a command as a Property and arguments are
present, only the first argument is passed to `set`; every argument after the
first has no effect on the result. -/
theorem exec_prop_first_arg (t : List PNode) (cmd a : String) (rest : List String)
    (hty : CvarExt.cmdtype t cmd = .prop) :
    CvarExt.exec t cmd (a :: rest) = CvarExt.set t cmd a ∧
    CvarExt.exec t cmd (a :: rest) = CvarExt.exec t cmd [a] := by
  have h1 : CvarExt.exec t cmd (a :: rest) = CvarExt.set t cmd a := by
    unfold CvarExt.exec
    rw [hty]
    rfl
  have h2 : CvarExt.exec t cmd [a] = CvarExt.set t cmd a := by
    unfold CvarExt.exec
    rw [hty]
    rfl
  exact ⟨h1, h1.trans h2.symm⟩

/-- Witness for C10: setting `width` with a junk extra argument behaves like
setting it with the first argument alone. -/
theorem exec_prop_first_arg_witness :
    CvarExt.exec sampleTree "width" ["150", "junk"]
      = CvarExt.exec sampleTree "width" ["150"] :=
  (exec_prop_first_arg sampleTree "width" "150" ["junk"]
    (show CvarExt.cmdtype sampleTree "width" = CmdType.prop from rfl)).2
